import Mathlib

/-!
Verification of the golf-coach agent (src/main.py, src/web_interface.py).

The agent's mutable state is a family of Python dictionaries holding JSON-like
values: golfer profiles, a coaching knowledge base, per-session chat
histories.  We embed JSON values as the inductive `Json` (numbers are
modelled as integers: the program only ever stores integer counters, and the
remote model's extraction replies are treated at the same granularity), and
Python dictionaries as insertion-ordered association lists.
-/

/-- A JSON value, as produced by Python's json module for this program's data
(objects, arrays, strings, integers, booleans, null). -/
inductive Json where
  | null
  | bool (b : Bool)
  | int (n : Int)
  | str (s : String)
  | arr (items : List Json)
  | obj (fields : List (String × Json))

mutual

/-- Decidable equality of JSON values (hand-rolled: the nested `List`
occurrences defeat automatic derivation). -/
def Json.decEq : (a b : Json) → Decidable (a = b)
  | .null, .null => .isTrue rfl
  | .null, .bool _ => .isFalse nofun
  | .null, .int _ => .isFalse nofun
  | .null, .str _ => .isFalse nofun
  | .null, .arr _ => .isFalse nofun
  | .null, .obj _ => .isFalse nofun
  | .bool _, .null => .isFalse nofun
  | .bool a, .bool b =>
    if h : a = b then .isTrue (h ▸ rfl) else .isFalse (fun he => h (Json.bool.inj he))
  | .bool _, .int _ => .isFalse nofun
  | .bool _, .str _ => .isFalse nofun
  | .bool _, .arr _ => .isFalse nofun
  | .bool _, .obj _ => .isFalse nofun
  | .int _, .null => .isFalse nofun
  | .int _, .bool _ => .isFalse nofun
  | .int a, .int b =>
    if h : a = b then .isTrue (h ▸ rfl) else .isFalse (fun he => h (Json.int.inj he))
  | .int _, .str _ => .isFalse nofun
  | .int _, .arr _ => .isFalse nofun
  | .int _, .obj _ => .isFalse nofun
  | .str _, .null => .isFalse nofun
  | .str _, .bool _ => .isFalse nofun
  | .str _, .int _ => .isFalse nofun
  | .str a, .str b =>
    if h : a = b then .isTrue (h ▸ rfl) else .isFalse (fun he => h (Json.str.inj he))
  | .str _, .arr _ => .isFalse nofun
  | .str _, .obj _ => .isFalse nofun
  | .arr _, .null => .isFalse nofun
  | .arr _, .bool _ => .isFalse nofun
  | .arr _, .int _ => .isFalse nofun
  | .arr _, .str _ => .isFalse nofun
  | .arr xs, .arr ys =>
    match Json.decEqList xs ys with
    | .isTrue h => .isTrue (h ▸ rfl)
    | .isFalse h => .isFalse (fun he => h (Json.arr.inj he))
  | .arr _, .obj _ => .isFalse nofun
  | .obj _, .null => .isFalse nofun
  | .obj _, .bool _ => .isFalse nofun
  | .obj _, .int _ => .isFalse nofun
  | .obj _, .str _ => .isFalse nofun
  | .obj _, .arr _ => .isFalse nofun
  | .obj xs, .obj ys =>
    match Json.decEqFields xs ys with
    | .isTrue h => .isTrue (h ▸ rfl)
    | .isFalse h => .isFalse (fun he => h (Json.obj.inj he))

/-- Decidable equality of JSON array contents. -/
def Json.decEqList : (xs ys : List Json) → Decidable (xs = ys)
  | [], [] => .isTrue rfl
  | [], _ :: _ => .isFalse nofun
  | _ :: _, [] => .isFalse nofun
  | x :: xs, y :: ys =>
    match Json.decEq x y, Json.decEqList xs ys with
    | .isTrue h1, .isTrue h2 => .isTrue (by rw [h1, h2])
    | .isFalse h1, _ => .isFalse (by intro he; injection he with ha hb; exact h1 ha)
    | _, .isFalse h2 => .isFalse (by intro he; injection he with ha hb; exact h2 hb)

/-- Decidable equality of JSON object contents. -/
def Json.decEqFields : (xs ys : List (String × Json)) → Decidable (xs = ys)
  | [], [] => .isTrue rfl
  | [], _ :: _ => .isFalse nofun
  | _ :: _, [] => .isFalse nofun
  | (k, v) :: xs, (k2, v2) :: ys =>
    if hk : k = k2 then
      match Json.decEq v v2, Json.decEqFields xs ys with
      | .isTrue h1, .isTrue h2 => .isTrue (by rw [hk, h1, h2])
      | .isFalse h1, _ => .isFalse (by
          intro he; injection he with ha hb; injection ha with hka hva; exact h1 hva)
      | _, .isFalse h2 => .isFalse (by intro he; injection he with ha hb; exact h2 hb)
    else
      .isFalse (by intro he; injection he with ha hb; injection ha with hka hva; exact hk hka)

end

instance : DecidableEq Json := Json.decEq

/-- Lookup in an association list, mirroring Python dict access / `.get`. -/
def alistGet {β : Type} : List (String × β) → String → Option β
  | [], _ => none
  | (k', v) :: rest, k => if k' = k then some v else alistGet rest k

/-- Key membership, mirroring Python's `k in d`. -/
def alistHas {β : Type} (l : List (String × β)) (k : String) : Bool :=
  (alistGet l k).isSome

/-- Assignment `d[k] = v`: replace the entry in place if the key is present,
append it otherwise (Python dicts preserve insertion order). -/
def alistSet {β : Type} : List (String × β) → String → β → List (String × β)
  | [], k, v => [(k, v)]
  | (k', v') :: rest, k, v =>
    if k' = k then (k, v) :: rest else (k', v') :: alistSet rest k v

/-- The key sequence of a dictionary. -/
def alistKeys {β : Type} (l : List (String × β)) : List String :=
  l.map Prod.fst

/-- A golfer profile is a Python dict from field names to JSON values
(src/main.py `self.golfer_profiles[golfer_id]`). -/
abbrev Profile := List (String × Json)

/-- The store of golfer profiles, keyed by golfer id. -/
abbrev ProfileStore := List (String × Profile)

def Json.isArr : Json → Bool
  | .arr _ => true
  | _ => false

def Json.isObj : Json → Bool
  | .obj _ => true
  | _ => false

def Json.isStr : Json → Bool
  | .str _ => true
  | _ => false

/-- The items of a JSON array (empty for non-arrays). -/
def Json.arrItems : Json → List Json
  | .arr xs => xs
  | _ => []

/-- The fields of a JSON object (empty for non-objects). -/
def Json.objFields : Json → List (String × Json)
  | .obj kvs => kvs
  | _ => []

/-- Python truthiness of a JSON value (`elif value:` in
`_extract_and_update_profile`, src/main.py line 266). -/
def Json.truthy : Json → Bool
  | .null => false
  | .bool b => b
  | .int n => n != 0
  | .str s => s.length != 0
  | .arr xs => !xs.isEmpty
  | .obj kvs => !kvs.isEmpty

/-- Whether every item of a list of JSON values is a string
(`all(isinstance(item, str) for item in value)`, src/main.py line 257). -/
def allStr (xs : List Json) : Bool :=
  xs.all Json.isStr

/-- Python `dict.update(value)`: set each key of `new` into `old`, in order
(src/main.py line 265). -/
def dictUpdate (old new : List (String × Json)) : List (String × Json) :=
  new.foldl (fun acc kv => alistSet acc kv.1 kv.2) old

/-- One iteration of the category-update loop of `_extract_and_update_profile`
(src/main.py lines 249-273): skip keys that are not profile fields; union
list into list when every new item is a string; update dict into dict key by
key; otherwise overwrite when the new value is truthy, wrapping a string in a
singleton list for the `swing_issues` and `goals` categories. -/
def updateCategory (profile : Profile) (category : String) (value : Json) : Profile :=
  if !(alistHas profile category) then profile
  else
    let existing := (alistGet profile category).getD .null
    if value.isArr && existing.isArr then
      if allStr value.arrItems then
        alistSet profile category (.arr ((existing.arrItems ++ value.arrItems).dedup))
      else profile
    else if value.isObj && existing.isObj then
      alistSet profile category (.obj (dictUpdate existing.objFields value.objFields))
    else if value.truthy then
      if (category = "swing_issues" || category = "goals") && value.isStr then
        alistSet profile category (.arr [value])
      else
        alistSet profile category value
    else profile

/-- The whole category-update loop: fold `updateCategory` over the fields of
the extracted JSON object (src/main.py line 249, `for category, value in
extracted_info.items()`). -/
def mergeExtracted (profile : Profile) (extracted : List (String × Json)) : Profile :=
  extracted.foldl (fun acc kv => updateCategory acc kv.1 kv.2) profile

/-! ### JSON text: the serializer/parser pair behind `json.dump` / `json.load`

`save_data` and `_load_data` (src/main.py lines 365-424) write and read the
profile store through Python's json module, and `_extract_and_update_profile`
/ `_reflect_on_interaction` call `json.loads` on a substring of the remote
model's reply.  We model that library as an executable serializer `dumps` and
recursive-descent parser `loads` over `Json`.  The serializer renders the
compact form (whitespace only affects the document text, never the parsed
value, so the round-trip and failure behaviour are unaffected). -/

/-- Whether a character is a decimal digit. -/
def isDigitCh (c : Char) : Bool :=
  decide (48 ≤ c.toNat) && decide (c.toNat ≤ 57)

/-- Numeric value of a digit character. -/
def charDigit (c : Char) : Nat := c.toNat - 48

/-- The character for a digit below ten. -/
def digitChar : Nat → Char
  | 0 => '0'
  | 1 => '1'
  | 2 => '2'
  | 3 => '3'
  | 4 => '4'
  | 5 => '5'
  | 6 => '6'
  | 7 => '7'
  | 8 => '8'
  | _ => '9'

/-- Base-10 digits of a natural number, least significant first. -/
def natDigitsRev (n : Nat) : List Nat :=
  if h : n < 10 then [n] else n % 10 :: natDigitsRev (n / 10)
termination_by n
decreasing_by exact Nat.div_lt_self (by omega) (by omega)

/-- Decimal rendering of a natural number. -/
def encNat (n : Nat) : List Char :=
  ((natDigitsRev n).map digitChar).reverse

/-- Decimal rendering of an integer. -/
def encInt (n : Int) : List Char :=
  if n < 0 then '-' :: encNat n.natAbs else encNat n.toNat

/-- JSON string escaping for one character: quotes and backslashes are
escaped, everything else is copied through. -/
def escChar (c : Char) : List Char :=
  if c = '"' then ['\\', '"'] else if c = '\\' then ['\\', '\\'] else [c]

/-- JSON string escaping. -/
def escChars : List Char → List Char
  | [] => []
  | c :: cs => escChar c ++ escChars cs

/-- A JSON string literal. -/
def encStr (s : String) : List Char :=
  '"' :: (escChars s.data ++ ['"'])

/-- The characters of the `null` keyword. -/
def nullChars : List Char := ['n', 'u', 'l', 'l']

/-- The characters of the `true` keyword. -/
def trueChars : List Char := ['t', 'r', 'u', 'e']

/-- The characters of the `false` keyword. -/
def falseChars : List Char := ['f', 'a', 'l', 's', 'e']

/-- The opening-brace character of a JSON object. -/
def lbrace : Char := Char.ofNat 123

/-- The closing-brace character of a JSON object. -/
def rbrace : Char := Char.ofNat 125

mutual

/-- Serialize a JSON value to characters. -/
def encJson : Json → List Char
  | .null => nullChars
  | .bool true => trueChars
  | .bool false => falseChars
  | .int n => encInt n
  | .str s => encStr s
  | .arr [] => ['[', ']']
  | .arr (x :: xs) => '[' :: (encJson x ++ encArrTail xs)
  | .obj [] => [lbrace, rbrace]
  | .obj (m :: ms) => lbrace :: (encMember m ++ encObjTail ms)

/-- Serialize the remaining elements of an array, starting at the comma
before each and ending with the closing bracket. -/
def encArrTail : List Json → List Char
  | [] => [']']
  | x :: xs => ',' :: (encJson x ++ encArrTail xs)

/-- Serialize one key/value member of an object. -/
def encMember : String × Json → List Char
  | (k, v) => encStr k ++ (':' :: encJson v)

/-- Serialize the remaining members of an object. -/
def encObjTail : List (String × Json) → List Char
  | [] => [rbrace]
  | m :: ms => ',' :: (encMember m ++ encObjTail ms)

end

/-- Parse the body of a JSON string literal (the opening quote already
consumed): stop at an unescaped quote, decode the two escapes the
serializer produces. -/
def parseStrRest : List Char → Option (List Char × List Char)
  | [] => none
  | c :: rest =>
    if c = '"' then some ([], rest)
    else if c = '\\' then
      match rest with
      | [] => none
      | c2 :: rest2 =>
        if c2 = '"' ∨ c2 = '\\' then
          match parseStrRest rest2 with
          | some (s, r) => some (c2 :: s, r)
          | none => none
        else none
    else
      match parseStrRest rest with
      | some (s, r) => some (c :: s, r)
      | none => none

/-- Split off the longest leading run of digit characters. -/
def spanDigits : List Char → List Char × List Char
  | [] => ([], [])
  | c :: cs =>
    if isDigitCh c then
      let p := spanDigits cs
      (c :: p.1, p.2)
    else ([], c :: cs)

/-- Value of a big-endian digit-character list. -/
def digitsToNat (cs : List Char) : Nat :=
  cs.foldl (fun a c => 10 * a + charDigit c) 0

/-- The body of the parser after a leading `n`: expect `ull`. -/
def parseNullBody : List Char → Option (Json × List Char)
  | 'u' :: 'l' :: 'l' :: r => some (.null, r)
  | _ => none

/-- The body of the parser after a leading `t`: expect `rue`. -/
def parseTrueBody : List Char → Option (Json × List Char)
  | 'r' :: 'u' :: 'e' :: r => some (.bool true, r)
  | _ => none

/-- The body of the parser after a leading `f`: expect `alse`. -/
def parseFalseBody : List Char → Option (Json × List Char)
  | 'a' :: 'l' :: 's' :: 'e' :: r => some (.bool false, r)
  | _ => none

/-- The body of the parser after a leading quote: a string literal. -/
def parseStrBody (rest : List Char) : Option (Json × List Char) :=
  match parseStrRest rest with
  | some (s, r) => some (.str (String.mk s), r)
  | none => none

/-- The body of the parser after a leading minus sign: a negative number. -/
def parseNegBody : List Char → Option (Json × List Char)
  | [] => none
  | c :: rest =>
    if isDigitCh c then
      let p := spanDigits rest
      some (.int (-(digitsToNat (c :: p.1) : Int)), p.2)
    else none

/-- The body of the parser at a leading digit `c`: a nonnegative number. -/
def parseNumBody (c : Char) (rest : List Char) : Option (Json × List Char) :=
  let p := spanDigits rest
  some (.int (digitsToNat (c :: p.1)), p.2)

/-- The array body of the parser after the opening bracket, with the
element parser `pj` and array-tail parser `pa` passed in. -/
def parseArrBodyG (pj : List Char → Option (Json × List Char))
    (pa : List Char → Option (List Json × List Char)) :
    List Char → Option (Json × List Char)
  | [] => none
  | c2 :: rest2 =>
    if c2 = ']' then some (.arr [], rest2)
    else
      match pj (c2 :: rest2) with
      | some (v, r1) =>
        match pa r1 with
        | some (vs, r2) => some (.arr (v :: vs), r2)
        | none => none
      | none => none

/-- The object body of the parser after the opening brace, with the member
parser `pm` and object-tail parser `po` passed in. -/
def parseObjBodyG (pm : List Char → Option ((String × Json) × List Char))
    (po : List Char → Option (List (String × Json) × List Char)) :
    List Char → Option (Json × List Char)
  | [] => none
  | c2 :: rest2 =>
    if c2 = rbrace then some (.obj [], rest2)
    else
      match pm (c2 :: rest2) with
      | some (m, r1) =>
        match po r1 with
        | some (ms, r2) => some (.obj (m :: ms), r2)
        | none => none
      | none => none

/-- One dispatch step of the JSON value parser, with the recursive parsers
passed as arguments so that the recursion below is structural in the fuel. -/
def parseJsonStep (pj : List Char → Option (Json × List Char))
    (pm : List Char → Option ((String × Json) × List Char))
    (pa : List Char → Option (List Json × List Char))
    (po : List Char → Option (List (String × Json) × List Char)) :
    List Char → Option (Json × List Char)
  | [] => none
  | c :: rest =>
    if c = 'n' then parseNullBody rest
    else if c = 't' then parseTrueBody rest
    else if c = 'f' then parseFalseBody rest
    else if c = '"' then parseStrBody rest
    else if c = '-' then parseNegBody rest
    else if c = '[' then parseArrBodyG pj pa rest
    else if c = lbrace then parseObjBodyG pm po rest
    else if isDigitCh c then parseNumBody c rest
    else none

/-- One step of the array-tail parser: the closing bracket, or a comma
followed by an element and the remaining tail. -/
def parseArrTailStep (pj : List Char → Option (Json × List Char))
    (pa : List Char → Option (List Json × List Char)) :
    List Char → Option (List Json × List Char)
  | [] => none
  | c :: rest =>
    if c = ']' then some ([], rest)
    else if c = ',' then
      match pj rest with
      | some (v, r1) =>
        match pa r1 with
        | some (vs, r2) => some (v :: vs, r2)
        | none => none
      | none => none
    else none

/-- One step of the object-member parser: a string key, a colon, a value. -/
def parseMemberStep (pj : List Char → Option (Json × List Char)) :
    List Char → Option ((String × Json) × List Char)
  | [] => none
  | c :: rest =>
    if c = '"' then
      match parseStrRest rest with
      | some (k, r1) =>
        match r1 with
        | [] => none
        | c2 :: r2 =>
          if c2 = ':' then
            match pj r2 with
            | some (v, r3) => some ((String.mk k, v), r3)
            | none => none
          else none
      | none => none
    else none

/-- One step of the object-tail parser: the closing brace, or a comma
followed by a member and the remaining tail. -/
def parseObjTailStep (pm : List Char → Option ((String × Json) × List Char))
    (po : List Char → Option (List (String × Json) × List Char)) :
    List Char → Option (List (String × Json) × List Char)
  | [] => none
  | c :: rest =>
    if c = rbrace then some ([], rest)
    else if c = ',' then
      match pm rest with
      | some (m, r1) =>
        match po r1 with
        | some (ms, r2) => some (m :: ms, r2)
        | none => none
      | none => none
    else none

mutual

/-- Recursive-descent JSON parser.  The fuel bounds the recursion depth; any
fuel of at least the input length is enough (the parser consumes at least
one character before each recursive step). -/
def parseJsonF : Nat → List Char → Option (Json × List Char)
  | 0, _ => none
  | fuel + 1, cs =>
    parseJsonStep (parseJsonF fuel) (parseMemberF fuel) (parseArrTailF fuel)
      (parseObjTailF fuel) cs

/-- Parse the elements after the first element of an array. -/
def parseArrTailF : Nat → List Char → Option (List Json × List Char)
  | 0, _ => none
  | fuel + 1, cs => parseArrTailStep (parseJsonF fuel) (parseArrTailF fuel) cs

/-- Parse one key/value member of an object. -/
def parseMemberF : Nat → List Char → Option ((String × Json) × List Char)
  | 0, _ => none
  | fuel + 1, cs => parseMemberStep (parseJsonF fuel) cs

/-- Parse the members after the first member of an object. -/
def parseObjTailF : Nat → List Char → Option (List (String × Json) × List Char)
  | 0, _ => none
  | fuel + 1, cs => parseObjTailStep (parseMemberF fuel) (parseObjTailF fuel) cs

end

/-- Parse a complete JSON document: the whole input must be consumed, as
with `json.loads`. -/
def parseJsonFull (cs : List Char) : Option Json :=
  match parseJsonF cs.length cs with
  | some (v, []) => some v
  | _ => none

/-- The model of `json.dumps`. -/
def dumps (v : Json) : String := String.mk (encJson v)

/-- The model of `json.loads`. -/
def loads (s : String) : Option Json := parseJsonFull s.data

/-- The substring from the first opening brace to the last closing brace:
`start = text.find(chr(123)); end = text.rfind(chr(125)) + 1`, kept when
`start >= 0 and end > start` (src/main.py lines 240-243 and 303-306). -/
def braceSubstring (cs : List Char) : Option (List Char) :=
  match cs.findIdx? (fun c => c == lbrace), cs.reverse.findIdx? (fun c => c == rbrace) with
  | some s, some i =>
    let e := cs.length - 1 - i
    if s < e + 1 then some ((cs.drop s).take (e + 1 - s)) else none
  | _, _ => none

/-- The JSON value the program manages to extract from a remote-model reply:
the brace-delimited substring, parsed in full.  `none` models every failure
path (no braces, or `json.loads` raising `JSONDecodeError`). -/
def extractedJson (text : String) : Option Json :=
  match braceSubstring text.data with
  | some sub => parseJsonFull sub
  | none => none

/-- `_extract_and_update_profile` (src/main.py lines 238-275) as a function
of the reply text and the profile being updated.  When no JSON object is
extracted the profile is returned unchanged: a missing brace pair skips the
body, a `JSONDecodeError` is caught on line 274, and a reply parsing to a
non-object raises `AttributeError` at `extracted_info.items()` before any
mutation, which the caller `_update_profile` catches (line 235). -/
def extractAndUpdateProfile (responseText : String) (profile : Profile) : Profile :=
  match extractedJson responseText with
  | some (.obj kvs) => mergeExtracted profile kvs
  | _ => profile

/-- The default profile record created by `_update_profile` for an unknown
golfer id (src/main.py lines 192-201). -/
def initProfile : Profile :=
  [("swing_issues", .arr []), ("equipment", .obj []), ("goals", .arr []),
   ("playing_history", .str ""), ("skill_level", .str "beginner"),
   ("last_message", .str ""), ("interaction_count", .int 0)]

/-- The lazy initialization step of `_update_profile`: create the default
record when the golfer id is missing (src/main.py lines 192-201). -/
def lazyInitProfiles (ps : ProfileStore) (gid : String) : ProfileStore :=
  if alistHas ps gid then ps else alistSet ps gid initProfile

/-- `profile.get("interaction_count", 0)` read as an integer (src/main.py
line 205).  A stored non-integer would raise `TypeError` at the `+ 1` in
Python, leaving the field unwritten; the model reads 0 there, and every
theorem that depends on the count assumes an integer-valued field. -/
def profileCount (p : Profile) : Int :=
  match alistGet p "interaction_count" with
  | some (.int n) => n
  | _ => 0

/-- The deterministic part of `_update_profile` (src/main.py lines 191-207):
lazy init, increment `interaction_count`, record `last_message`. -/
def updateProfileBase (ps : ProfileStore) (gid : String) (info : String) : ProfileStore :=
  let ps := lazyInitProfiles ps gid
  let p := (alistGet ps gid).getD initProfile
  let p := alistSet p "interaction_count" (.int (profileCount p + 1))
  let p := alistSet p "last_message" (.str info)
  alistSet ps gid p

/-- All of `_update_profile` (src/main.py lines 189-236): the base update
followed by the extraction merge, where `modelReply` is the text the remote
model returned for the extraction prompt. -/
def updateProfile (ps : ProfileStore) (gid : String) (info : String) (modelReply : String) : ProfileStore :=
  let ps := updateProfileBase ps gid info
  alistSet ps gid (extractAndUpdateProfile modelReply ((alistGet ps gid).getD initProfile))

/-- `self.golfer_profiles.get(golfer_id, \x7b\x7d).get("interaction_count", 0)`
(src/main.py line 280). -/
def countJson (ps : ProfileStore) (gid : String) : Json :=
  (alistGet ((alistGet ps gid).getD []) "interaction_count").getD (.int 0)

/-- The reflection trigger of `_reflect_on_interaction` (src/main.py line
280): the stored interaction count is a multiple of 5.  A non-integer count
would raise `TypeError` in Python before any update; the model returns
`false` there (no update either way). -/
def reflectionGuard (ps : ProfileStore) (gid : String) : Bool :=
  match countJson ps gid with
  | .int n => n % 5 == 0
  | _ => false

/-- The size cap of the tip knowledge base (src/main.py lines 320-323):
when more than 20 tips are stored, keep the last 20. -/
def capTips (tips : List Json) : List Json :=
  if tips.length > 20 then tips.drop (tips.length - 20) else tips

/-- Append a tip and apply the cap (src/main.py lines 317-323). -/
def addTip (tips : List Json) (t : Json) : List Json :=
  capTips (tips ++ [t])

/-- The `new_tip` record built by reflection (src/main.py lines 312-316),
with the timestamp passed in. -/
def mkTip (kvs : List (String × Json)) (date : String) : Json :=
  .obj [("tip", (alistGet kvs "effective_tip").getD .null),
        ("keywords", (alistGet kvs "keywords").getD .null),
        ("date_added", .str date)]

/-- The human message the reflection prompt sends to the remote model
(src/main.py line 295): only the current turn's input and response. -/
def reflectionHumanMessage (userInput response : String) : String :=
  "USER: " ++ userInput ++ "\n\nCOACH: " ++ response

/-- `_reflect_on_interaction` (src/main.py lines 277-325) as a function of
the stores it reads and the remote model's reply to the reflection prompt:
return the tips unchanged unless the interaction count is a multiple of 5;
then extract a JSON object from the reply and, when it has both an
`effective_tip` and a `keywords` field, append the new tip under the cap.
All failure paths (no braces, parse error, missing fields) leave the tips
unchanged: the whole body sits in a `try` whose handler only prints. -/
def reflectOnInteraction (ps : ProfileStore) (gid userInput response modelReply date : String)
    (tips : List Json) : List Json :=
  if !(reflectionGuard ps gid) then tips
  else
    match extractedJson modelReply with
    | some (.obj kvs) =>
      if alistHas kvs "effective_tip" && alistHas kvs "keywords" then
        addTip tips (mkTip kvs date)
      else tips
    | _ => tips

/-- A transcript turn: role and text. -/
abbrev ChatTurn := String × String

/-- The per-session transcript store `self.session_store`. -/
abbrev SessionStore := List (String × List ChatTurn)

/-- `get_chat_history` (src/main.py lines 83-87): create an empty history
for an unknown session id, then return the stored history. -/
def getChatHistory (store : SessionStore) (sid : String) : SessionStore × List ChatTurn :=
  let store := if alistHas store sid then store else alistSet store sid []
  (store, (alistGet store sid).getD [])

/-- The number of transcript turns stored for a session. -/
def sessionTurns (store : SessionStore) (sid : String) : Nat :=
  ((alistGet store sid).getD []).length

/-- The profile store as the JSON document `save_data` writes
(src/main.py lines 402-405). -/
def profilesJson (ps : ProfileStore) : Json :=
  .obj (ps.map (fun p => (p.1, Json.obj p.2)))

/-- `save_data` for the golfer profiles: serialize the store to the document
text (src/main.py lines 402-405). -/
def saveProfiles (ps : ProfileStore) : String :=
  dumps (profilesJson ps)

/-- Read the parsed profiles document back into the store shape
(`self.golfer_profiles = json.load(f)`, src/main.py line 372). -/
def decodeProfiles : List (String × Json) → Option ProfileStore
  | [] => some []
  | (k, v) :: rest =>
    match v with
    | .obj fields =>
      match decodeProfiles rest with
      | some ds => some ((k, fields) :: ds)
      | none => none
    | _ => none

/-- `_load_data` for the golfer profiles: parse the document and read it as
a store (src/main.py lines 369-372). -/
def loadProfiles (s : String) : Option ProfileStore :=
  match loads s with
  | some (.obj kvs) => decodeProfiles kvs
  | _ => none

/-- Whether `pat` is a leading chunk of `text`. -/
def startsWithL : List Char → List Char → Bool
  | [], _ => true
  | _ :: _, [] => false
  | p :: ps, c :: cs => p == c && startsWithL ps cs

/-- Substring occurrence check. -/
def occursIn (pat : List Char) : List Char → Bool
  | [] => pat.isEmpty
  | c :: rest => startsWithL pat (c :: rest) || occursIn pat rest

/-- Substring occurrence on strings, as Python's `in` operator. -/
def occursInStr (pat s : String) : Bool :=
  occursIn pat.data s.data

/-- The last `n` entries of a list (`l[-n:]` in Python, which is all of `l`
when it has at most `n` entries). -/
def takeLastN {α : Type} (n : Nat) (l : List α) : List α :=
  l.drop (l.length - n)

/-- The first 100 characters of the response (`response[:100]`). -/
def truncate100 (s : String) : String :=
  String.mk (s.data.take 100)

/-- Modelled from the spec: what one Memory Curator update appends, before
trimming — the input verbatim when longer than 20 characters, and the
100-character-truncated response when it contains a coaching keyword
(spec section 4.2).  The append logic of `GolfCoachAgent.long_term_memory`
is not among the provided sources; src/web_interface.py only reads
`coach.long_term_memory` (lines 309-318). -/
def memAppends (keywords : List String) (input response : String) : List String :=
  (if input.length > 20 then [input] else []) ++
  (if keywords.any (fun kw => occursInStr kw response) then [truncate100 response] else [])

/-- Modelled from the spec: the Memory Curator update (spec section 4.2) —
append the input verbatim if its length exceeds 20 characters; append a
truncated (100-char) copy of the response if it contains any of a fixed set
of coaching keywords; trim to the most recent 10 entries after each append.
The implementing method is not among the provided sources (see
`memAppends`); the keyword set is a parameter since the spec does not list
its members. -/
def updateLongTermMemory (keywords : List String) (input response : String)
    (mem : List String) : List String :=
  let mem := if input.length > 20 then takeLastN 10 (mem ++ [input]) else mem
  let mem :=
    if keywords.any (fun kw => occursInStr kw response) then
      takeLastN 10 (mem ++ [truncate100 response])
    else mem
  mem

/-- Modelled from the spec: the fixed swing-issue keyword list of the
keyword-matching Profile Tracker variant (spec section 4.1; the extraction
prompt in src/main.py line 215 names "slice, hook, etc." as the technique
problems).  The keyword-matching update itself is not among the provided
sources: src/main.py delegates profile extraction to the remote model. -/
def swingIssueKeywords : List String := ["slice", "hook"]

/-- Append-if-absent insertion of a tag into a tag list. -/
def addTagIfAbsent (tags : List String) (tag : String) : List String :=
  if tag ∈ tags then tags else tags ++ [tag]

/-- Character-wise lowercasing of a string. -/
def toLowerStr (s : String) : String :=
  String.mk (s.data.map Char.toLower)

/-- Modelled from the spec: the keyword-matching swing-issue update of the
Profile Tracker ("performs case-insensitive substring matching against fixed
keyword lists to ... append-if-absent entries into swing_issues", spec
section 4.1), which is not among the provided sources. -/
def keywordSwingUpdate (input : String) (tags : List String) : List String :=
  swingIssueKeywords.foldl
    (fun acc kw => if occursInStr kw (toLowerStr input) then addTagIfAbsent acc kw else acc)
    tags

/-- Whether a character list does not begin with a digit (the condition under
which a serialized number followed by that list parses back exactly). -/
def headNotDigit : List Char → Bool
  | [] => true
  | c :: _ => !(isDigitCh c)

/-! ### Helper lemmas -/

theorem string_mk_data (s : String) : String.mk s.data = s := rfl

theorem alistGet_set_self {β : Type} (l : List (String × β)) (k : String) (v : β) :
    alistGet (alistSet l k v) k = some v := by
  induction l with
  | nil => simp [alistSet, alistGet]
  | cons kv rest ih =>
    obtain ⟨k', v'⟩ := kv
    by_cases h : k' = k
    · simp [alistSet, h, alistGet]
    · simp [alistSet, h, alistGet, ih]

theorem alistGet_set_ne {β : Type} (l : List (String × β)) (k k' : String) (v : β)
    (h : k ≠ k') : alistGet (alistSet l k v) k' = alistGet l k' := by
  induction l with
  | nil => simp [alistSet, alistGet, h]
  | cons kv rest ih =>
    obtain ⟨k1, v1⟩ := kv
    by_cases h1 : k1 = k
    · simp [alistSet, h1, alistGet, h]
    · simp [alistSet, h1, alistGet, ih]

theorem alistSet_absent {β : Type} (l : List (String × β)) (k : String) (v : β)
    (h : alistHas l k = false) : alistSet l k v = l ++ [(k, v)] := by
  induction l with
  | nil => simp [alistSet]
  | cons kv rest ih =>
    obtain ⟨k1, v1⟩ := kv
    simp only [alistHas, alistGet] at h
    by_cases h1 : k1 = k
    · simp [h1] at h
    · simp only [alistSet, h1, if_false]
      rw [ih]
      · simp
      · simpa [alistHas, h1] using h

theorem alistKeys_set_of_has {β : Type} (l : List (String × β)) (k : String) (v : β)
    (h : alistHas l k = true) : alistKeys (alistSet l k v) = alistKeys l := by
  induction l with
  | nil => simp [alistHas, alistGet] at h
  | cons kv rest ih =>
    obtain ⟨k1, v1⟩ := kv
    by_cases h1 : k1 = k
    · simp [alistSet, h1, alistKeys]
    · simp only [alistHas, alistGet, h1, if_false] at h
      simp [alistSet, h1, alistKeys] at ih ⊢
      exact ih h

theorem alistGet_eq_none_of_all_ne {β : Type} (l : List (String × β)) (k : String)
    (h : ∀ q ∈ l, q.1 ≠ k) : alistGet l k = none := by
  induction l with
  | nil => rfl
  | cons kv rest ih =>
    simp only [alistGet]
    rw [if_neg (h kv (by simp))]
    exact ih (fun q hq => h q (by simp [hq]))

theorem all_ne_of_alistHas_false {β : Type} (l : List (String × β)) (k : String)
    (h : alistHas l k = false) : ∀ q ∈ l, q.1 ≠ k := by
  induction l with
  | nil => simp
  | cons kv rest ih =>
    obtain ⟨k1, v1⟩ := kv
    simp only [alistHas, alistGet] at h
    by_cases h1 : k1 = k
    · simp [h1] at h
    · intro q hq
      rcases List.mem_cons.mp hq with hq | hq
      · simpa [hq]
      · exact ih (by simpa [alistHas, h1] using h) q hq

theorem isSuffix_refl {α : Type} (l : List α) : List.IsSuffix l l := ⟨[], rfl⟩

theorem isSuffix_trans {α : Type} {a b c : List α}
    (h1 : List.IsSuffix a b) (h2 : List.IsSuffix b c) : List.IsSuffix a c := by
  obtain ⟨p, hp⟩ := h1
  obtain ⟨q, hq⟩ := h2
  exact ⟨q ++ p, by rw [List.append_assoc, hp, hq]⟩

theorem isSuffix_append_right {α : Type} {s l : List α} (r : List α)
    (h : List.IsSuffix s l) : List.IsSuffix (s ++ r) (l ++ r) := by
  obtain ⟨p, hp⟩ := h
  exact ⟨p, by rw [← List.append_assoc, hp]⟩

theorem drop_isSuffix {α : Type} (n : Nat) (l : List α) : List.IsSuffix (l.drop n) l :=
  ⟨l.take n, List.take_append_drop n l⟩

theorem capTips_isSuffix (tips : List Json) : List.IsSuffix (capTips tips) tips := by
  unfold capTips
  split
  · exact drop_isSuffix _ _
  · exact isSuffix_refl _

theorem length_capTips_le (tips : List Json) (h : tips.length ≤ 21) :
    (capTips tips).length ≤ 20 := by
  unfold capTips
  split
  · simp only [List.length_drop]
    omega
  · omega

theorem length_foldl_addTip (init : List Json) (ts : List Json) (h : init.length ≤ 20) :
    (List.foldl addTip init ts).length ≤ 20 := by
  induction ts generalizing init with
  | nil => simpa using h
  | cons t ts ih =>
    simp only [List.foldl_cons]
    exact ih _ (length_capTips_le _ (by simp; omega))

theorem foldl_addTip_isSuffix (init : List Json) (ts : List Json) :
    List.IsSuffix (List.foldl addTip init ts) (init ++ ts) := by
  induction ts generalizing init with
  | nil => simpa using isSuffix_refl init
  | cons t ts ih =>
    simp only [List.foldl_cons]
    have h1 := ih (addTip init t)
    have h2 : List.IsSuffix (addTip init t) (init ++ [t]) := capTips_isSuffix _
    have h3 := isSuffix_append_right ts h2
    have h4 := isSuffix_trans h1 h3
    simpa [List.append_assoc] using h4

theorem length_takeLastN_le {α : Type} (n : Nat) (l : List α) :
    (takeLastN n l).length ≤ n := by
  simp [takeLastN, List.length_drop]
  omega

theorem takeLastN_isSuffix {α : Type} (n : Nat) (l : List α) :
    List.IsSuffix (takeLastN n l) l := drop_isSuffix _ _

theorem takeLastN_of_le {α : Type} (n : Nat) (l : List α) (h : l.length ≤ n) :
    takeLastN n l = l := by
  simp [takeLastN, Nat.sub_eq_zero_of_le h]

theorem length_takeLastN_of_ge {α : Type} (n : Nat) (l : List α) (h : n ≤ l.length) :
    (takeLastN n l).length = n := by
  simp [takeLastN, List.length_drop]
  omega

theorem takeLastN_append_of_le {α : Type} (n : Nat) (x z : List α) (h : n ≤ z.length) :
    takeLastN n (x ++ z) = takeLastN n z := by
  simp only [takeLastN, List.length_append]
  have he : x.length + z.length - n = x.length + (z.length - n) := by omega
  rw [he, ← List.drop_drop]
  congr 1
  rw [List.drop_left]

theorem takeLastN_takeLastN_append {α : Type} (n : Nat) (x y : List α) :
    takeLastN n (takeLastN n x ++ y) = takeLastN n (x ++ y) := by
  by_cases h : x.length ≤ n
  · rw [takeLastN_of_le n x h]
  · have hx : x.take (x.length - n) ++ takeLastN n x = x := List.take_append_drop _ x
    have hlen : n ≤ (takeLastN n x ++ y).length := by
      simp [List.length_append, length_takeLastN_of_ge n x (by omega)]
    calc takeLastN n (takeLastN n x ++ y)
        = takeLastN n (x.take (x.length - n) ++ (takeLastN n x ++ y)) :=
          (takeLastN_append_of_le n _ _ hlen).symm
      _ = takeLastN n (x ++ y) := by rw [← List.append_assoc, hx]

theorem updateLongTermMemory_eq_takeLastN (kws : List String) (i r : String)
    (mem : List String) (h : mem.length ≤ 10) :
    updateLongTermMemory kws i r mem = takeLastN 10 (mem ++ memAppends kws i r) := by
  unfold updateLongTermMemory memAppends
  by_cases h1 : i.length > 20 <;>
    by_cases h2 : (kws.any fun kw => occursInStr kw r) = true
  · simp only [h1, h2, if_true, if_pos]
    rw [takeLastN_takeLastN_append, List.append_assoc]
  · simp [h1, h2]
  · simp [h1, h2]
  · simp [h1, h2]
    exact (takeLastN_of_le 10 mem h).symm

theorem length_updateLongTermMemory_le (kws : List String) (i r : String)
    (mem : List String) (h : mem.length ≤ 10) :
    (updateLongTermMemory kws i r mem).length ≤ 10 := by
  rw [updateLongTermMemory_eq_takeLastN kws i r mem h]
  exact length_takeLastN_le 10 _

theorem foldl_updateLongTermMemory_length (kws : List String)
    (prs : List (String × String)) (mem0 : List String) (h : mem0.length ≤ 10) :
    (prs.foldl (fun m pr => updateLongTermMemory kws pr.1 pr.2 m) mem0).length ≤ 10 := by
  induction prs generalizing mem0 with
  | nil => simpa using h
  | cons pr prs ih =>
    simp only [List.foldl_cons]
    exact ih _ (length_updateLongTermMemory_le kws pr.1 pr.2 mem0 h)

theorem updateLongTermMemory_isSuffix (kws : List String) (i r : String)
    (mem : List String) :
    List.IsSuffix (updateLongTermMemory kws i r mem) (mem ++ memAppends kws i r) := by
  unfold updateLongTermMemory memAppends
  by_cases h1 : i.length > 20 <;>
    by_cases h2 : (kws.any fun kw => occursInStr kw r) = true
  · simp only [h1, h2, if_true]
    refine isSuffix_trans (takeLastN_isSuffix 10 _) ?h
    have := isSuffix_append_right [truncate100 r] (takeLastN_isSuffix 10 (mem ++ [i]))
    simpa [List.append_assoc] using this
  · simp [h1, h2]
    exact takeLastN_isSuffix 10 _
  · simp [h1, h2]
    exact takeLastN_isSuffix 10 _
  · simp [h1, h2]

theorem foldl_updateLongTermMemory_isSuffix (kws : List String)
    (prs : List (String × String)) (mem0 : List String) :
    List.IsSuffix (prs.foldl (fun m pr => updateLongTermMemory kws pr.1 pr.2 m) mem0)
      (mem0 ++ (prs.map (fun pr => memAppends kws pr.1 pr.2)).flatten) := by
  induction prs generalizing mem0 with
  | nil => simpa using isSuffix_refl mem0
  | cons pr prs ih =>
    simp only [List.foldl_cons, List.map_cons, List.flatten_cons]
    have h1 := ih (updateLongTermMemory kws pr.1 pr.2 mem0)
    have h2 := isSuffix_append_right ((prs.map (fun pr => memAppends kws pr.1 pr.2)).flatten)
      (updateLongTermMemory_isSuffix kws pr.1 pr.2 mem0)
    have h3 := isSuffix_trans h1 h2
    simpa [List.append_assoc] using h3

theorem mem_addTagIfAbsent_self (tags : List String) (tag : String) :
    tag ∈ addTagIfAbsent tags tag := by
  unfold addTagIfAbsent
  split
  · assumption
  · simp

theorem mem_addTagIfAbsent_of_mem (tags : List String) (t tag : String) (h : t ∈ tags) :
    t ∈ addTagIfAbsent tags tag := by
  unfold addTagIfAbsent
  split
  · exact h
  · simp [h]

theorem addTagIfAbsent_of_mem (tags : List String) (tag : String) (h : tag ∈ tags) :
    addTagIfAbsent tags tag = tags := by
  unfold addTagIfAbsent
  rw [if_pos h]

theorem startsWithL_map (f : Char → Char) (pat l : List Char)
    (h : startsWithL pat l = true) : startsWithL (pat.map f) (l.map f) = true := by
  induction pat generalizing l with
  | nil => simp [startsWithL]
  | cons p ps ih =>
    cases l with
    | nil => simp [startsWithL] at h
    | cons c cs =>
      simp only [startsWithL, Bool.and_eq_true, beq_iff_eq] at h
      simp only [List.map_cons, startsWithL, Bool.and_eq_true, beq_iff_eq]
      exact ⟨by rw [h.1], ih cs h.2⟩

theorem occursIn_map (f : Char → Char) (pat l : List Char)
    (h : occursIn pat l = true) : occursIn (pat.map f) (l.map f) = true := by
  induction l with
  | nil =>
    simp only [occursIn, List.isEmpty_iff] at h
    simp [h, occursIn]
  | cons c cs ih =>
    simp only [occursIn, Bool.or_eq_true] at h
    rcases h with h | h
    · simp only [List.map_cons, occursIn, Bool.or_eq_true]
      exact Or.inl (startsWithL_map f pat (c :: cs) h)
    · simp only [List.map_cons, occursIn, Bool.or_eq_true]
      exact Or.inr (ih h)

theorem occursInStr_toLower_slice (input : String)
    (h : occursInStr "slice" input = true) :
    occursInStr "slice" (toLowerStr input) = true := by
  have h2 := occursIn_map Char.toLower "slice".data input.data h
  simpa [occursInStr, toLowerStr] using h2

theorem slice_mem_keywordSwingUpdate (input : String) (tags : List String)
    (h : occursInStr "slice" (toLowerStr input) = true) :
    "slice" ∈ keywordSwingUpdate input tags := by
  unfold keywordSwingUpdate swingIssueKeywords
  simp only [List.foldl_cons, List.foldl_nil]
  by_cases h2 : occursInStr "hook" (toLowerStr input) = true
  · simp only [h, h2, if_true]
    exact mem_addTagIfAbsent_of_mem _ _ _ (mem_addTagIfAbsent_self tags "slice")
  · simp only [h, h2, if_true, if_false]
    exact mem_addTagIfAbsent_self tags "slice"

theorem keywordSwingUpdate_idem (input : String) (tags : List String) :
    keywordSwingUpdate input (keywordSwingUpdate input tags) = keywordSwingUpdate input tags := by
  unfold keywordSwingUpdate swingIssueKeywords
  simp only [List.foldl_cons, List.foldl_nil]
  by_cases h1 : occursInStr "slice" (toLowerStr input) = true <;>
    by_cases h2 : occursInStr "hook" (toLowerStr input) = true
  · simp only [h1, h2, if_true]
    have hs : "slice" ∈ addTagIfAbsent (addTagIfAbsent tags "slice") "hook" :=
      mem_addTagIfAbsent_of_mem _ _ _ (mem_addTagIfAbsent_self tags "slice")
    have hh : "hook" ∈ addTagIfAbsent (addTagIfAbsent tags "slice") "hook" :=
      mem_addTagIfAbsent_self _ "hook"
    rw [addTagIfAbsent_of_mem _ _ hs, addTagIfAbsent_of_mem _ _ hh]
  · simp only [h1, h2, if_true, if_false]
    exact addTagIfAbsent_of_mem _ _ (mem_addTagIfAbsent_self tags "slice")
  · simp only [h1, h2, if_true, if_false]
    exact addTagIfAbsent_of_mem _ _ (mem_addTagIfAbsent_self tags "hook")
  · simp [h1, h2]

theorem alistKeys_updateCategory (p : Profile) (c : String) (v : Json) :
    alistKeys (updateCategory p c v) = alistKeys p := by
  by_cases hc : alistHas p c
  · simp only [updateCategory, hc, Bool.not_true, Bool.false_eq_true, if_false]
    split_ifs <;> first
      | rfl
      | exact alistKeys_set_of_has p c _ hc
  · simp [updateCategory, hc]

theorem alistGet_updateCategory_ne (p : Profile) (c : String) (v : Json) (c' : String)
    (h : c ≠ c') : alistGet (updateCategory p c v) c' = alistGet p c' := by
  by_cases hc : alistHas p c
  · simp only [updateCategory, hc, Bool.not_true, Bool.false_eq_true, if_false]
    split_ifs <;> first
      | rfl
      | exact alistGet_set_ne p c c' _ h
  · simp [updateCategory, hc]

theorem alistGet_mergeExtracted_of_absent (p : Profile) (kvs : List (String × Json))
    (c : String) (h : ∀ q ∈ kvs, q.1 ≠ c) :
    alistGet (mergeExtracted p kvs) c = alistGet p c := by
  induction kvs generalizing p with
  | nil => rfl
  | cons kv rest ih =>
    simp only [mergeExtracted, List.foldl_cons] at ih ⊢
    rw [ih (updateCategory p kv.1 kv.2) (fun q hq => h q (List.mem_cons_of_mem _ hq))]
    exact alistGet_updateCategory_ne p kv.1 kv.2 c (h kv (by simp))

theorem alistGet_dictUpdate_of_absent (old new : List (String × Json)) (k : String)
    (h : ∀ q ∈ new, q.1 ≠ k) : alistGet (dictUpdate old new) k = alistGet old k := by
  induction new generalizing old with
  | nil => rfl
  | cons kv rest ih =>
    simp only [dictUpdate, List.foldl_cons] at ih ⊢
    rw [ih (alistSet old kv.1 kv.2) (fun q hq => h q (List.mem_cons_of_mem _ hq))]
    exact alistGet_set_ne old kv.1 k kv.2 (h kv (by simp))

theorem alistGet_dictUpdate_some (old new : List (String × Json)) (k : String) (w : Json)
    (hnd : (alistKeys new).Nodup) (h : alistGet new k = some w) :
    alistGet (dictUpdate old new) k = some w := by
  induction new generalizing old with
  | nil => simp [alistGet] at h
  | cons kv rest ih =>
    obtain ⟨k1, v1⟩ := kv
    simp only [dictUpdate, List.foldl_cons]
    simp only [alistGet] at h
    simp only [alistKeys, List.map_cons, List.nodup_cons] at hnd
    by_cases hk : k1 = k
    · subst hk
      rw [if_pos rfl] at h
      have habs : ∀ q ∈ rest, q.1 ≠ k1 := by
        intro q hq he
        exact hnd.1 (he ▸ List.mem_map_of_mem Prod.fst hq)
      show alistGet (dictUpdate (alistSet old k1 v1) rest) k1 = some w
      rw [alistGet_dictUpdate_of_absent (alistSet old k1 v1) rest k1 habs,
        alistGet_set_self]
      exact h
    · rw [if_neg hk] at h
      show alistGet (dictUpdate (alistSet old k1 v1) rest) k = some w
      exact ih (alistSet old k1 v1) hnd.2 h

theorem alistGet_dictUpdate_none (old new : List (String × Json)) (k : String)
    (h : alistGet new k = none) : alistGet (dictUpdate old new) k = alistGet old k :=
  alistGet_dictUpdate_of_absent old new k
    (all_ne_of_alistHas_false new k (by simp [alistHas, h]))

theorem natDigitsRev_ne_nil (n : Nat) : natDigitsRev n ≠ [] := by
  unfold natDigitsRev
  split <;> simp

theorem natDigitsRev_lt_ten (n : Nat) : ∀ d ∈ natDigitsRev n, d < 10 := by
  induction n using Nat.strong_induction_on with
  | _ n ih =>
    by_cases h : n < 10
    · rw [natDigitsRev, dif_pos h]
      intro d hd
      simp only [List.mem_singleton] at hd
      omega
    · rw [natDigitsRev, dif_neg h]
      intro d hd
      rcases List.mem_cons.mp hd with hd | hd
      · subst hd
        exact Nat.mod_lt _ (by omega)
      · exact ih (n / 10) (Nat.div_lt_self (by omega) (by omega)) d hd

theorem charDigit_digitChar (d : Nat) (h : d < 10) : charDigit (digitChar d) = d := by
  interval_cases d <;> rfl

theorem isDigitCh_digitChar (d : Nat) (h : d < 10) : isDigitCh (digitChar d) = true := by
  interval_cases d <;> rfl

theorem encNat_ne_nil (n : Nat) : encNat n ≠ [] := by
  unfold encNat
  simp [natDigitsRev_ne_nil]

theorem encNat_digits (n : Nat) : ∀ c ∈ encNat n, isDigitCh c = true := by
  intro c hc
  unfold encNat at hc
  rw [List.mem_reverse] at hc
  obtain ⟨d, hd, rfl⟩ := List.mem_map.mp hc
  exact isDigitCh_digitChar d (natDigitsRev_lt_ten n d hd)

theorem encNat_step (n : Nat) (h : ¬ n < 10) :
    encNat n = encNat (n / 10) ++ [digitChar (n % 10)] := by
  unfold encNat
  rw [natDigitsRev, dif_neg h]
  simp

theorem digitsToNat_snoc (xs : List Char) (c : Char) :
    digitsToNat (xs ++ [c]) = 10 * digitsToNat xs + charDigit c := by
  simp [digitsToNat, List.foldl_append]

theorem digitsToNat_encNat (n : Nat) : digitsToNat (encNat n) = n := by
  induction n using Nat.strong_induction_on with
  | _ n ih =>
    by_cases h : n < 10
    · have he : encNat n = [digitChar n] := by
        unfold encNat
        rw [natDigitsRev, dif_pos h]
        simp
      rw [he]
      simp [digitsToNat, charDigit_digitChar n h]
    · rw [encNat_step n h, digitsToNat_snoc,
        ih (n / 10) (Nat.div_lt_self (by omega) (by omega)),
        charDigit_digitChar _ (Nat.mod_lt _ (by omega))]
      omega

theorem spanDigits_append (ds rest : List Char) (hd : ∀ c ∈ ds, isDigitCh c = true)
    (hr : headNotDigit rest = true) : spanDigits (ds ++ rest) = (ds, rest) := by
  induction ds with
  | nil =>
    simp only [List.nil_append]
    cases rest with
    | nil => rfl
    | cons c cs =>
      simp only [headNotDigit, Bool.not_eq_true'] at hr
      simp [spanDigits, hr]
  | cons d ds ih =>
    have hdd := hd d (by simp)
    simp only [List.cons_append, spanDigits, hdd, if_true, List.append_eq]
    rw [ih (fun c hc => hd c (by simp [hc]))]

theorem parseStrRest_enc (s rest : List Char) :
    parseStrRest (escChars s ++ '"' :: rest) = some (s, rest) := by
  induction s with
  | nil =>
    simp only [escChars, List.nil_append]
    rw [parseStrRest.eq_def]
    simp
  | cons c cs ih =>
    by_cases h1 : c = '"'
    · subst h1
      simp only [escChars, escChar, List.cons_append, List.append_assoc]
      rw [parseStrRest.eq_def]
      simp [ih]
    · by_cases h2 : c = '\\'
      · subst h2
        simp only [escChars, escChar, List.cons_append, List.append_assoc]
        rw [parseStrRest.eq_def]
        simp [ih]
      · simp only [escChars, escChar, h1, h2, if_false, List.cons_append, List.append_assoc]
        rw [parseStrRest.eq_def]
        simp [h1, h2, ih]

theorem digit_ne_special (c : Char) (h : isDigitCh c = true) :
    c ≠ 'n' ∧ c ≠ 't' ∧ c ≠ 'f' ∧ c ≠ '"' ∧ c ≠ '-' ∧ c ≠ '[' ∧ c ≠ lbrace ∧
      c ≠ ']' ∧ c ≠ rbrace ∧ c ≠ ',' ∧ c ≠ ':' := by
  refine ⟨?_, ?_, ?_, ?_, ?_, ?_, ?_, ?_, ?_, ?_, ?_⟩ <;>
    · rintro rfl
      revert h
      decide

theorem encJson_head (v : Json) :
    ∃ c t, encJson v = c :: t ∧ c ≠ ']' ∧ c ≠ rbrace ∧ c ≠ ',' ∧ c ≠ ':' := by
  cases v with
  | null => exact ⟨'n', _, rfl, by decide, by decide, by decide, by decide⟩
  | bool b =>
    cases b with
    | true => exact ⟨'t', _, rfl, by decide, by decide, by decide, by decide⟩
    | false => exact ⟨'f', _, rfl, by decide, by decide, by decide, by decide⟩
  | int n =>
    by_cases hn : n < 0
    · refine ⟨'-', encNat n.natAbs, ?_, by decide, by decide, by decide, by decide⟩
      simp [encJson, encInt, hn]
    · cases he : encNat n.toNat with
      | nil => exact absurd he (encNat_ne_nil _)
      | cons c t =>
        have hc : isDigitCh c = true := encNat_digits n.toNat c (by rw [he]; simp)
        obtain ⟨_, _, _, _, _, _, _, d8, d9, d10, d11⟩ := digit_ne_special c hc
        refine ⟨c, t, ?_, d8, d9, d10, d11⟩
        simp [encJson, encInt, hn, he]
  | str s => exact ⟨'"', _, rfl, by decide, by decide, by decide, by decide⟩
  | arr xs =>
    cases xs with
    | nil => exact ⟨'[', _, rfl, by decide, by decide, by decide, by decide⟩
    | cons x xs => exact ⟨'[', _, rfl, by decide, by decide, by decide, by decide⟩
  | obj ms =>
    cases ms with
    | nil => exact ⟨lbrace, _, rfl, by decide, by decide, by decide, by decide⟩
    | cons m ms => exact ⟨lbrace, _, rfl, by decide, by decide, by decide, by decide⟩

theorem headNotDigit_encArrTail (xs : List Json) (rest : List Char) :
    headNotDigit (encArrTail xs ++ rest) = true := by
  cases xs <;> rfl

theorem headNotDigit_encObjTail (ms : List (String × Json)) (rest : List Char) :
    headNotDigit (encObjTail ms ++ rest) = true := by
  cases ms <;> rfl

theorem encJson_len_pos (v : Json) : 0 < (encJson v).length := by
  obtain ⟨c, t, he, -⟩ := encJson_head v
  simp [he]

theorem parseJsonF_succ (fuel : Nat) (cs : List Char) :
    parseJsonF (fuel + 1) cs =
      parseJsonStep (parseJsonF fuel) (parseMemberF fuel) (parseArrTailF fuel)
        (parseObjTailF fuel) cs := rfl

theorem parseArrTailF_succ (fuel : Nat) (cs : List Char) :
    parseArrTailF (fuel + 1) cs =
      parseArrTailStep (parseJsonF fuel) (parseArrTailF fuel) cs := rfl

theorem parseMemberF_succ (fuel : Nat) (cs : List Char) :
    parseMemberF (fuel + 1) cs = parseMemberStep (parseJsonF fuel) cs := rfl

theorem parseObjTailF_succ (fuel : Nat) (cs : List Char) :
    parseObjTailF (fuel + 1) cs =
      parseObjTailStep (parseMemberF fuel) (parseObjTailF fuel) cs := rfl

theorem parseArrTailF_enc (xs : List Json)
    (H : ∀ x ∈ xs, ∀ (fuel : Nat) (rest : List Char),
      (encJson x ++ rest).length ≤ fuel → headNotDigit rest = true →
      parseJsonF fuel (encJson x ++ rest) = some (x, rest)) :
    ∀ (fuel : Nat) (rest : List Char), (encArrTail xs ++ rest).length ≤ fuel →
      headNotDigit rest = true →
      parseArrTailF fuel (encArrTail xs ++ rest) = some (xs, rest) := by
  induction xs with
  | nil =>
    intro fuel rest hf hr
    simp only [encArrTail, List.cons_append, List.nil_append, List.length_cons] at hf ⊢
    cases fuel with
    | zero => omega
    | succ f =>
      rw [parseArrTailF_succ]
      simp [parseArrTailStep]
  | cons x xs ih =>
    intro fuel rest hf hr
    simp only [encArrTail, List.cons_append, List.append_assoc, List.length_cons,
      List.length_append] at hf ⊢
    cases fuel with
    | zero => omega
    | succ f =>
      have hx := H x (by simp) f (encArrTail xs ++ rest)
        (by simp [List.length_append]; omega) (headNotDigit_encArrTail xs rest)
      have hxs := ih (fun y hy fuel rest h1 h2 => H y (by simp [hy]) fuel rest h1 h2)
        f rest (by simp [List.length_append]; omega) hr
      rw [parseArrTailF_succ]
      simp [parseArrTailStep, hx, hxs]

theorem parseMemberF_enc (k : String) (v : Json)
    (Hv : ∀ (fuel : Nat) (rest : List Char),
      (encJson v ++ rest).length ≤ fuel → headNotDigit rest = true →
      parseJsonF fuel (encJson v ++ rest) = some (v, rest)) :
    ∀ (fuel : Nat) (rest : List Char), (encMember (k, v) ++ rest).length ≤ fuel →
      headNotDigit rest = true →
      parseMemberF fuel (encMember (k, v) ++ rest) = some ((k, v), rest) := by
  intro fuel rest hf hr
  simp only [encMember, encStr, List.cons_append, List.append_assoc, List.length_cons,
    List.length_append] at hf ⊢
  cases fuel with
  | zero => omega
  | succ f =>
    have hv := Hv f rest (by simp [List.length_append]; omega) hr
    have hs := parseStrRest_enc k.data (':' :: (encJson v ++ rest))
    rw [parseMemberF_succ]
    simp only [List.cons_append, List.append_assoc] at hs ⊢
    simp [parseMemberStep, hs, hv, string_mk_data]

theorem parseObjTailF_enc (ms : List (String × Json))
    (H : ∀ m ∈ ms, ∀ (fuel : Nat) (rest : List Char),
      (encMember m ++ rest).length ≤ fuel → headNotDigit rest = true →
      parseMemberF fuel (encMember m ++ rest) = some (m, rest)) :
    ∀ (fuel : Nat) (rest : List Char), (encObjTail ms ++ rest).length ≤ fuel →
      headNotDigit rest = true →
      parseObjTailF fuel (encObjTail ms ++ rest) = some (ms, rest) := by
  induction ms with
  | nil =>
    intro fuel rest hf hr
    simp only [encObjTail, List.cons_append, List.nil_append, List.length_cons] at hf ⊢
    cases fuel with
    | zero => omega
    | succ f =>
      rw [parseObjTailF_succ]
      simp [parseObjTailStep, rbrace]
  | cons m ms ih =>
    intro fuel rest hf hr
    simp only [encObjTail, List.cons_append, List.append_assoc, List.length_cons,
      List.length_append] at hf ⊢
    cases fuel with
    | zero => omega
    | succ f =>
      have hm := H m (by simp) f (encObjTail ms ++ rest)
        (by simp [List.length_append]; omega) (headNotDigit_encObjTail ms rest)
      have hms := ih (fun m2 hm2 fuel rest h1 h2 => H m2 (by simp [hm2]) fuel rest h1 h2)
        f rest (by simp [List.length_append]; omega) hr
      rw [parseObjTailF_succ]
      simp [parseObjTailStep, hm, hms, rbrace, lbrace]


theorem lbrace_ne_dispatch :
    lbrace ≠ 'n' ∧ lbrace ≠ 't' ∧ lbrace ≠ 'f' ∧ lbrace ≠ '"' ∧ lbrace ≠ '-' ∧
      lbrace ≠ '[' := by
  refine ⟨?_, ?_, ?_, ?_, ?_, ?_⟩ <;> decide

theorem parseJsonF_enc : ∀ (N : Nat) (v : Json), sizeOf v ≤ N →
    ∀ (fuel : Nat) (rest : List Char), (encJson v ++ rest).length ≤ fuel →
      headNotDigit rest = true → parseJsonF fuel (encJson v ++ rest) = some (v, rest) := by
  intro N
  induction N with
  | zero =>
    intro v hv
    exfalso
    cases v <;> simp at hv
  | succ N IH =>
    intro v hv fuel rest hf hr
    cases v with
    | null =>
      simp only [encJson, nullChars, List.cons_append, List.nil_append,
        List.length_cons] at hf ⊢
      cases fuel with
      | zero => omega
      | succ f =>
        rw [parseJsonF_succ]
        simp [parseJsonStep, parseNullBody]
    | bool b =>
      cases b <;>
        simp only [encJson, trueChars, falseChars, List.cons_append, List.nil_append,
          List.length_cons] at hf ⊢ <;>
        (cases fuel with
         | zero => omega
         | succ f =>
           rw [parseJsonF_succ]
           simp [parseJsonStep, parseTrueBody, parseFalseBody])
    | str s =>
      simp only [encJson, encStr, List.cons_append, List.append_assoc, List.length_cons,
        List.length_append] at hf ⊢
      cases fuel with
      | zero => omega
      | succ f =>
        have hs := parseStrRest_enc s.data rest
        rw [parseJsonF_succ]
        simp [parseJsonStep, parseStrBody, hs, string_mk_data]
    | int n =>
      by_cases hn : n < 0
      · simp only [encJson, encInt, hn, if_true] at hf ⊢
        cases he : encNat n.natAbs with
        | nil => exact absurd he (encNat_ne_nil _)
        | cons d ds =>
          have hds : ∀ c ∈ d :: ds, isDigitCh c = true := by
            rw [← he]
            exact encNat_digits n.natAbs
          have hdig : isDigitCh d = true := hds d (by simp)
          rw [he] at hf
          simp only [List.cons_append, List.length_cons, List.length_append] at hf ⊢
          cases fuel with
          | zero => omega
          | succ f =>
            have hsp := spanDigits_append ds rest (fun c hc => hds c (by simp [hc])) hr
            have hval : digitsToNat (d :: ds) = n.natAbs := by
              rw [← he, digitsToNat_encNat]
            have hni : -((n.natAbs : Nat) : Int) = n := by omega
            rw [parseJsonF_succ]
            simp [parseJsonStep, parseNegBody, hdig, hsp, hval, hni, -Int.natCast_natAbs]
      · simp only [encJson, encInt, hn, if_false] at hf ⊢
        cases he : encNat n.toNat with
        | nil => exact absurd he (encNat_ne_nil _)
        | cons d ds =>
          have hds : ∀ c ∈ d :: ds, isDigitCh c = true := by
            rw [← he]
            exact encNat_digits n.toNat
          have hdig : isDigitCh d = true := hds d (by simp)
          obtain ⟨q1, q2, q3, q4, q5, q6, q7, q8, q9, q10, q11⟩ := digit_ne_special d hdig
          rw [he] at hf
          simp only [List.cons_append, List.length_cons, List.length_append] at hf ⊢
          cases fuel with
          | zero => omega
          | succ f =>
            have hsp := spanDigits_append ds rest (fun c hc => hds c (by simp [hc])) hr
            have hval : digitsToNat (d :: ds) = n.toNat := by
              rw [← he, digitsToNat_encNat]
            have hni : ((n.toNat : Nat) : Int) = n := Int.toNat_of_nonneg (by omega)
            rw [parseJsonF_succ]
            simp [parseJsonStep, parseNumBody, q1, q2, q3, q4, q5, q6, q7, hdig, hsp, hval, hni]
    | arr xs =>
      cases xs with
      | nil =>
        simp only [encJson, List.cons_append, List.nil_append, List.length_cons] at hf ⊢
        cases fuel with
        | zero => omega
        | succ f =>
          rw [parseJsonF_succ]
          simp [parseJsonStep, parseArrBodyG]
      | cons x xs =>
        have hszx : sizeOf x ≤ N := by
          simp at hv
          omega
        have hszxs : ∀ y ∈ xs, sizeOf y ≤ N := by
          intro y hy
          have h1 := List.sizeOf_lt_of_mem hy
          simp at hv
          omega
        simp only [encJson, List.cons_append, List.append_assoc, List.length_cons,
          List.length_append] at hf ⊢
        cases fuel with
        | zero => omega
        | succ f =>
          have hx := IH x hszx f (encArrTail xs ++ rest)
            (by simp [List.length_append]; omega) (headNotDigit_encArrTail xs rest)
          have htail := parseArrTailF_enc xs
            (fun y hy fuel rest h1 h2 => IH y (hszxs y hy) fuel rest h1 h2)
            f rest (by simp [List.length_append]; omega) hr
          obtain ⟨c, t, hec, hne1, hne2, hne3, hne4⟩ := encJson_head x
          rw [parseJsonF_succ]
          rw [hec] at hx ⊢
          simp only [List.cons_append, List.append_assoc] at hx ⊢
          simp [parseJsonStep, parseArrBodyG, hne1, hx, htail]
    | obj ms =>
      cases ms with
      | nil =>
        simp only [encJson, List.cons_append, List.nil_append, List.length_cons] at hf ⊢
        cases fuel with
        | zero => omega
        | succ f =>
          obtain ⟨b1, b2, b3, b4, b5, b6⟩ := lbrace_ne_dispatch
          rw [parseJsonF_succ]
          simp [parseJsonStep, parseObjBodyG, b1, b2, b3, b4, b5, b6]
      | cons m ms =>
        obtain ⟨k, v⟩ := m
        have hszv : sizeOf v ≤ N := by
          simp at hv
          omega
        have hszms : ∀ m2 ∈ ms, ∀ (fuel : Nat) (rest : List Char),
            (encMember m2 ++ rest).length ≤ fuel → headNotDigit rest = true →
            parseMemberF fuel (encMember m2 ++ rest) = some (m2, rest) := by
          intro m2 hm2
          obtain ⟨k2, v2⟩ := m2
          have h1 := List.sizeOf_lt_of_mem hm2
          have hszv2 : sizeOf v2 ≤ N := by
            simp at hv h1
            omega
          exact parseMemberF_enc k2 v2 (IH v2 hszv2)
        simp only [encJson, List.cons_append, List.append_assoc, List.length_cons,
          List.length_append] at hf ⊢
        cases fuel with
        | zero => omega
        | succ f =>
          have hm := parseMemberF_enc k v (IH v hszv) f (encObjTail ms ++ rest)
            (by simp [List.length_append]; omega)
            (headNotDigit_encObjTail ms rest)
          have htail := parseObjTailF_enc ms hszms f rest
            (by simp [List.length_append]; omega) hr
          obtain ⟨b1, b2, b3, b4, b5, b6⟩ := lbrace_ne_dispatch
          have hq : ('"' : Char) ≠ rbrace := by decide
          rw [parseJsonF_succ]
          simp only [encMember, encStr, List.cons_append, List.append_assoc,
            List.nil_append] at hm ⊢
          simp [parseJsonStep, parseObjBodyG, b1, b2, b3, b4, b5, b6, hq, hm, htail]

theorem data_mk (l : List Char) : (String.mk l).data = l := rfl

theorem parseJsonFull_enc (v : Json) : parseJsonFull (encJson v) = some v := by
  have h := parseJsonF_enc (sizeOf v) v le_rfl (encJson v).length []
    (by simp) rfl
  simp only [List.append_nil] at h
  simp [parseJsonFull, h]

theorem loads_dumps (v : Json) : loads (dumps v) = some v := by
  simp only [loads, dumps, data_mk]
  exact parseJsonFull_enc v

theorem decodeProfiles_map (ps : ProfileStore) :
    decodeProfiles (ps.map (fun p => (p.1, Json.obj p.2))) = some ps := by
  induction ps with
  | nil => rfl
  | cons p ps ih =>
    obtain ⟨g, pr⟩ := p
    simp [decodeProfiles, ih]

/-- C8: for every golfer profile store, serializing it to the profiles
document (`save_data`, src/main.py lines 402-405) and parsing that document
back (`_load_data`, src/main.py lines 369-372) returns exactly the original
store: every profile record and every field of it round-trips unchanged. -/
theorem save_load_roundtrip (ps : ProfileStore) :
    loadProfiles (saveProfiles ps) = some ps := by
  unfold loadProfiles saveProfiles
  rw [loads_dumps]
  simp [profilesJson, decodeProfiles_map ps]

/-- C10: merging an extracted JSON object into a golfer profile preserves the
profile's key sequence exactly: the guard on src/main.py line 250 skips every
key of the extracted object that is not already a profile field, and each
update writes to an existing field, so untrusted model output can never add a
field to a profile. -/
theorem mergeExtracted_preserves_keys (p : Profile) (kvs : List (String × Json)) :
    alistKeys (mergeExtracted p kvs) = alistKeys p := by
  induction kvs generalizing p with
  | nil => rfl
  | cons kv rest ih =>
    simp only [mergeExtracted, List.foldl_cons] at ih ⊢
    rw [ih (updateCategory p kv.1 kv.2), alistKeys_updateCategory]

/-- C5: when no JSON value can be extracted from the remote model's reply
(no brace pair, or the substring fails to parse), the extraction step leaves
the profile unchanged and the reflection step leaves the effective-tips
knowledge base unchanged; both failures are caught inside the methods
(src/main.py lines 274-275 and 324-325). -/
theorem parse_failure_no_update (extractReply reflectReply : String) (p : Profile)
    (ps : ProfileStore) (gid ui resp date : String) (tips : List Json)
    (h1 : extractedJson extractReply = none) (h2 : extractedJson reflectReply = none) :
    extractAndUpdateProfile extractReply p = p ∧
    reflectOnInteraction ps gid ui resp reflectReply date tips = tips := by
  constructor
  · simp [extractAndUpdateProfile, h1]
  · unfold reflectOnInteraction
    split
    · rfl
    · simp [h2]

/-- Witness for C5: the reply has a brace pair whose content is not JSON. -/
theorem parse_failure_no_update_w :
    extractAndUpdateProfile "\x7bnope\x7d" initProfile = initProfile ∧
    reflectOnInteraction [] "g" "u" "r" "\x7bnope\x7d" "d" [] = [] := by
  have h : extractedJson "\x7bnope\x7d" = none := rfl
  exact parse_failure_no_update "\x7bnope\x7d" "\x7bnope\x7d" initProfile [] "g" "u" "r" "d" [] h h

/-- C9: an unknown session id gets a fresh empty chat history appended to the
session store (src/main.py lines 85-86), an unknown golfer id gets the
default profile record appended to the profile store (lines 192-201), and
that default record has empty swing_issues, equipment, goals and
playing_history, skill_level "beginner", and interaction_count 0 — lookups
and updates on missing keys never fail. -/
theorem missing_key_lazy_init (store : SessionStore) (sid : String)
    (ps : ProfileStore) (gid : String) :
    (alistHas store sid = false → getChatHistory store sid = (store ++ [(sid, [])], [])) ∧
    (alistHas ps gid = false → lazyInitProfiles ps gid = ps ++ [(gid, initProfile)]) ∧
    alistGet initProfile "swing_issues" = some (Json.arr []) ∧
    alistGet initProfile "equipment" = some (Json.obj []) ∧
    alistGet initProfile "goals" = some (Json.arr []) ∧
    alistGet initProfile "playing_history" = some (Json.str "") ∧
    alistGet initProfile "skill_level" = some (Json.str "beginner") ∧
    alistGet initProfile "interaction_count" = some (Json.int 0) := by
  refine ⟨?_, ?_, by decide, by decide, by decide, by decide, by decide, by decide⟩
  · intro h
    simp only [getChatHistory, h, Bool.false_eq_true, if_false]
    rw [alistGet_set_self, alistSet_absent store sid [] h]
    rfl
  · intro h
    simp only [lazyInitProfiles, h, Bool.false_eq_true, if_false]
    exact alistSet_absent ps gid initProfile h

/-- Witness for C9 on empty stores. -/
theorem missing_key_lazy_init_w :
    getChatHistory [] "s" = ([("s", [])], []) ∧
    lazyInitProfiles [] "g" = [("g", initProfile)] := by
  have h := missing_key_lazy_init [] "s" [] "g"
  exact ⟨by simpa using h.1 rfl, by simpa using h.2.1 rfl⟩

/-- C7: the effective-tips list never exceeds 20 entries no matter how many
reflections append to it (src/main.py lines 317-323), the surviving entries
are always a suffix of everything ever appended (so the evicted entries are
the oldest), and at the cap an append discards exactly the oldest entry. -/
theorem effective_tips_capped (init ts : List Json) (h : init.length ≤ 20) :
    (List.foldl addTip init ts).length ≤ 20 ∧
    List.IsSuffix (List.foldl addTip init ts) (init ++ ts) ∧
    (∀ (tips : List Json) (t : Json), tips.length = 20 →
      addTip tips t = (tips ++ [t]).drop 1) := by
  refine ⟨length_foldl_addTip init ts h, foldl_addTip_isSuffix init ts, ?_⟩
  intro tips t ht
  simp [addTip, capTips, ht]

/-- Witness for C7 with a concrete tip list. -/
theorem effective_tips_capped_w :
    (List.foldl addTip [] [Json.null]).length ≤ 20 ∧
    List.IsSuffix (List.foldl addTip [] [Json.null]) ([] ++ [Json.null]) ∧
    (∀ (tips : List Json) (t : Json), tips.length = 20 →
      addTip tips t = (tips ++ [t]).drop 1) :=
  effective_tips_capped [] [Json.null] (by decide)

/-- C2: the long-term memory log stays at no more than 10 entries under any
sequence of updates, the surviving entries are a suffix of everything ever
appended (oldest evicted first), one update equals appending the qualifying
entries and keeping the most recent 10, an input longer than 20 characters
is appended verbatim, and a response containing a coaching keyword is
appended truncated to 100 characters (spec section 4.2, modelled: see
`updateLongTermMemory`). -/
theorem long_term_memory_bounded (kws : List String) (mem0 : List String)
    (prs : List (String × String)) (h : mem0.length ≤ 10) :
    (prs.foldl (fun m pr => updateLongTermMemory kws pr.1 pr.2 m) mem0).length ≤ 10 ∧
    List.IsSuffix (prs.foldl (fun m pr => updateLongTermMemory kws pr.1 pr.2 m) mem0)
      (mem0 ++ (prs.map (fun pr => memAppends kws pr.1 pr.2)).flatten) ∧
    (∀ (i r : String) (m : List String), m.length ≤ 10 →
      updateLongTermMemory kws i r m = takeLastN 10 (m ++ memAppends kws i r)) ∧
    (∀ i r : String, 20 < i.length → i ∈ memAppends kws i r) ∧
    (∀ i r : String, (kws.any fun kw => occursInStr kw r) = true →
      truncate100 r ∈ memAppends kws i r) := by
  refine ⟨foldl_updateLongTermMemory_length kws prs mem0 h,
    foldl_updateLongTermMemory_isSuffix kws prs mem0,
    fun i r m hm => updateLongTermMemory_eq_takeLastN kws i r m hm,
    fun i r hi => ?_, fun i r hk => ?_⟩
  · simp [memAppends, hi]
  · simp [memAppends, hk]

/-- Witness for C2: one update with a 40-character input. -/
theorem long_term_memory_bounded_w :
    ([(("a long input exceeding twenty characters" : String), ("resp" : String))].foldl
        (fun m pr => updateLongTermMemory ["tip"] pr.1 pr.2 m) []).length ≤ 10 ∧
    "a long input exceeding twenty characters" ∈
      memAppends ["tip"] "a long input exceeding twenty characters" "resp" := by
  have h := long_term_memory_bounded ["tip"] []
    [("a long input exceeding twenty characters", "resp")] (by decide)
  exact ⟨h.1, h.2.2.2.1 _ _ (by decide)⟩

/-- C6: any input containing the substring "slice" puts "slice" into the
swing-issue tags after one keyword-matching profile update, and applying the
same update again changes nothing, so the tag is never duplicated (spec
sections 4.1 and 8, modelled: see `keywordSwingUpdate`). -/
theorem slice_tag_idempotent (input : String) (tags : List String)
    (h : occursInStr "slice" input = true) :
    "slice" ∈ keywordSwingUpdate input tags ∧
    keywordSwingUpdate input (keywordSwingUpdate input tags) =
      keywordSwingUpdate input tags := by
  have h2 := occursInStr_toLower_slice input h
  exact ⟨slice_mem_keywordSwingUpdate input tags h2, keywordSwingUpdate_idem input tags⟩

/-- Witness for C6 at a concrete input. -/
theorem slice_tag_idempotent_w :
    "slice" ∈ keywordSwingUpdate "My slice is bad" [] ∧
    keywordSwingUpdate "My slice is bad" (keywordSwingUpdate "My slice is bad" []) =
      keywordSwingUpdate "My slice is bad" [] :=
  slice_tag_idempotent "My slice is bad" [] (by decide)

theorem updateProfileBase_count (ps : ProfileStore) (gid info : String) (n : Int)
    (h0 : countJson ps gid = Json.int n) :
    ∃ p2, alistGet (updateProfileBase ps gid info) gid = some p2 ∧
      alistGet p2 "interaction_count" = some (Json.int (n + 1)) := by
  by_cases hcase : alistHas ps gid
  · obtain ⟨q, hq⟩ : ∃ q, alistGet ps gid = some q := by
      rcases h : alistGet ps gid with _ | q
      · rw [alistHas, h] at hcase
        simp at hcase
      · exact ⟨q, rfl⟩
    have hpc : profileCount q = n := by
      unfold countJson at h0
      rw [hq] at h0
      simp only [Option.getD_some] at h0
      unfold profileCount
      rcases hqc : alistGet q "interaction_count" with _ | j
      · rw [hqc] at h0
        simp only [Option.getD_none] at h0
        injection h0
      · rw [hqc] at h0
        simp only [Option.getD_some] at h0
        rw [h0]
    simp only [updateProfileBase, lazyInitProfiles, hcase, if_true, hq, Option.getD_some]
    refine ⟨_, alistGet_set_self _ _ _, ?_⟩
    rw [alistGet_set_ne _ _ _ _ (by decide), alistGet_set_self, hpc]
  · have hnone : alistGet ps gid = none := by
      rcases h : alistGet ps gid with _ | q
      · rfl
      · rw [alistHas, h] at hcase
        simp at hcase
    have hn0 : n = 0 := by
      unfold countJson at h0
      rw [hnone] at h0
      simp only [Option.getD_none] at h0
      have h1 : (alistGet ([] : Profile) "interaction_count").getD (Json.int 0)
          = Json.int 0 := rfl
      rw [h1] at h0
      injection h0 with h0
      omega
    subst hn0
    simp only [updateProfileBase, lazyInitProfiles, hcase, Bool.false_eq_true, if_false,
      alistGet_set_self, Option.getD_some]
    refine ⟨_, rfl, ?_⟩
    rw [alistGet_set_ne _ _ _ _ (by decide), alistGet_set_self]
    rfl

theorem extractAndUpdateProfile_count (reply : String) (p : Profile)
    (hr : ∀ kvs, extractedJson reply = some (Json.obj kvs) →
      alistHas kvs "interaction_count" = false) :
    alistGet (extractAndUpdateProfile reply p) "interaction_count" =
      alistGet p "interaction_count" := by
  rcases hx : extractedJson reply with _ | j
  · simp [extractAndUpdateProfile, hx]
  · cases j with
    | obj kvs =>
      simp only [extractAndUpdateProfile, hx]
      exact alistGet_mergeExtracted_of_absent p kvs _
        (all_ne_of_alistHas_false kvs _ (hr kvs hx))
    | null => simp [extractAndUpdateProfile, hx]
    | bool b => simp [extractAndUpdateProfile, hx]
    | int n => simp [extractAndUpdateProfile, hx]
    | str s => simp [extractAndUpdateProfile, hx]
    | arr xs => simp [extractAndUpdateProfile, hx]

theorem updateProfile_count (ps : ProfileStore) (gid info reply : String) (n : Int)
    (h0 : countJson ps gid = Json.int n)
    (hr : ∀ kvs, extractedJson reply = some (Json.obj kvs) →
      alistHas kvs "interaction_count" = false) :
    countJson (updateProfile ps gid info reply) gid = Json.int (n + 1) := by
  obtain ⟨p2, hp2, hc2⟩ := updateProfileBase_count ps gid info n h0
  unfold updateProfile countJson
  simp only [hp2, Option.getD_some, alistGet_set_self]
  rw [extractAndUpdateProfile_count reply p2 hr, hc2]
  rfl

theorem int_pos_mult_iff (m : Int) (hm : 1 ≤ m) :
    m % 5 = 0 ↔ ∃ k : Int, 0 < k ∧ m = 5 * k := by
  constructor
  · intro h
    have h2 := Int.ediv_add_emod m 5
    exact ⟨m / 5, by omega, by omega⟩
  · rintro ⟨k, hk, rfl⟩
    simp [Int.mul_emod_right]

/-- C3: after a coaching turn increments the stored interaction count from
`n` to `n + 1` (src/main.py lines 203-206), the reflection guard fires
exactly when `n + 1` is a positive multiple of the configured period 5
(line 280) and at no other count; the hypothesis on the extraction reply
says the remote model's extracted object does not itself overwrite the
`interaction_count` field. -/
theorem reflection_trigger_iff (ps : ProfileStore) (gid info reply : String) (n : Int)
    (h0 : countJson ps gid = Json.int n) (hn : 0 ≤ n)
    (hr : ∀ kvs, extractedJson reply = some (Json.obj kvs) →
      alistHas kvs "interaction_count" = false) :
    countJson (updateProfile ps gid info reply) gid = Json.int (n + 1) ∧
    (reflectionGuard (updateProfile ps gid info reply) gid = true ↔
      ∃ k : Int, 0 < k ∧ n + 1 = 5 * k) := by
  have hc := updateProfile_count ps gid info reply n h0 hr
  refine ⟨hc, ?_⟩
  unfold reflectionGuard
  rw [hc]
  simp only [beq_iff_eq]
  exact int_pos_mult_iff (n + 1) (by omega)

/-- Witness for C3: a fresh golfer's first turn reaches count 1, which does
not trigger reflection. -/
theorem reflection_trigger_iff_w :
    countJson (updateProfile [] "g" "hi" "nojson") "g" = Json.int 1 ∧
    reflectionGuard (updateProfile [] "g" "hi" "nojson") "g" = false := by
  have h := reflection_trigger_iff [] "g" "hi" "nojson" 0 rfl (by omega)
    (fun kvs hk => by
      rw [show extractedJson "nojson" = none from rfl] at hk
      cases hk)
  refine ⟨h.1, ?_⟩
  cases hg : reflectionGuard (updateProfile [] "g" "hi" "nojson") "g" with
  | false => rfl
  | true =>
    obtain ⟨k, hk, he⟩ := h.2.mp hg
    omega

theorem updateCategory_arr_arr (p : Profile) (c : String) (old new : List Json)
    (hc : alistHas p c = true) (ho : alistGet p c = some (Json.arr old))
    (ha : allStr new = true) :
    updateCategory p c (Json.arr new) =
      alistSet p c (Json.arr ((old ++ new).dedup)) := by
  simp [updateCategory, hc, ho, Json.isArr, Json.arrItems, ha]

theorem updateCategory_arr_arr_bad (p : Profile) (c : String) (old new : List Json)
    (hc : alistHas p c = true) (ho : alistGet p c = some (Json.arr old))
    (ha : allStr new = false) :
    updateCategory p c (Json.arr new) = p := by
  simp [updateCategory, hc, ho, Json.isArr, Json.arrItems, ha]

theorem updateCategory_obj_obj (p : Profile) (c : String)
    (old new : List (String × Json))
    (hc : alistHas p c = true) (ho : alistGet p c = some (Json.obj old)) :
    updateCategory p c (Json.obj new) =
      alistSet p c (Json.obj (dictUpdate old new)) := by
  simp [updateCategory, hc, ho, Json.isArr, Json.isObj, Json.objFields]

theorem updateCategory_scalar_truthy (p : Profile) (c : String) (v : Json)
    (hc : alistHas p c = true) (hv1 : v.isArr = false) (hv2 : v.isObj = false)
    (ht : v.truthy = true) (hc1 : c ≠ "swing_issues") (hc2 : c ≠ "goals") :
    updateCategory p c v = alistSet p c v := by
  simp [updateCategory, hc, hv1, hv2, ht, hc1, hc2]

theorem updateCategory_scalar_falsy (p : Profile) (c : String) (v : Json)
    (hc : alistHas p c = true) (hv1 : v.isArr = false) (hv2 : v.isObj = false)
    (ht : v.truthy = false) :
    updateCategory p c v = p := by
  simp [updateCategory, hc, hv1, hv2, ht]

theorem updateCategory_str_special (p : Profile) (c : String) (v : Json)
    (hc : alistHas p c = true) (hs : v.isStr = true) (ht : v.truthy = true)
    (hcs : c = "swing_issues" ∨ c = "goals") :
    updateCategory p c v = alistSet p c (Json.arr [v]) := by
  cases v with
  | str s =>
    rcases hcs with hcs | hcs <;> subst hcs <;>
      simp [updateCategory, hc, Json.isArr, Json.isObj, Json.isStr, ht]
  | null => simp [Json.isStr] at hs
  | bool b => simp [Json.isStr] at hs
  | int n => simp [Json.isStr] at hs
  | arr xs => simp [Json.isStr] at hs
  | obj kvs => simp [Json.isStr] at hs

/-- Counterexample to C4 as stated: extraction returns the JSON object with
`swing_issues` holding the list `[42]`; merging it into the default profile
changes nothing — `swing_issues` stays empty instead of becoming the union
with the new list — because the union on src/main.py line 258 only runs when
every new item is a string (line 257). -/
theorem merge_list_union_cex :
    mergeExtracted initProfile [("swing_issues", Json.arr [Json.int 42])] = initProfile ∧
    alistGet (mergeExtracted initProfile [("swing_issues", Json.arr [Json.int 42])])
      "swing_issues" = some (Json.arr []) := by
  exact ⟨rfl, rfl⟩

/-- C4 (amended): merging an extracted JSON value into an existing profile
field behaves as follows — a list is unioned (deduplicated) into an existing
list only when every new item is a string and otherwise leaves the field
unchanged; an object updates an existing mapping key by key (new keys win,
others are kept); a scalar overwrites the field only when truthy, except
that a non-empty string for `swing_issues` or `goals` is wrapped into a
singleton list (src/main.py lines 249-273). -/
theorem merge_semantics (p : Profile) (c : String) (v : Json)
    (hc : alistHas p c = true) :
    (∀ old new, alistGet p c = some (Json.arr old) → v = Json.arr new →
      allStr new = true →
      alistGet (updateCategory p c v) c = some (Json.arr ((old ++ new).dedup)) ∧
      (∀ x : Json, x ∈ (old ++ new).dedup ↔ x ∈ old ∨ x ∈ new) ∧
      ((old ++ new).dedup).Nodup) ∧
    (∀ old new, alistGet p c = some (Json.arr old) → v = Json.arr new →
      allStr new = false → updateCategory p c v = p) ∧
    (∀ old new, alistGet p c = some (Json.obj old) → v = Json.obj new →
      alistGet (updateCategory p c v) c = some (Json.obj (dictUpdate old new)) ∧
      (∀ (k : String) (w : Json), (alistKeys new).Nodup → alistGet new k = some w →
        alistGet (dictUpdate old new) k = some w) ∧
      (∀ k : String, alistGet new k = none →
        alistGet (dictUpdate old new) k = alistGet old k)) ∧
    (v.isArr = false → v.isObj = false → v.truthy = true → c ≠ "swing_issues" →
      c ≠ "goals" → updateCategory p c v = alistSet p c v) ∧
    (v.isArr = false → v.isObj = false → v.truthy = false →
      updateCategory p c v = p) ∧
    (v.isStr = true → v.truthy = true → (c = "swing_issues" ∨ c = "goals") →
      updateCategory p c v = alistSet p c (Json.arr [v])) := by
  refine ⟨?_, ?_, ?_, ?_, ?_, ?_⟩
  · intro old new ho hv ha
    subst hv
    rw [updateCategory_arr_arr p c old new hc ho ha, alistGet_set_self]
    refine ⟨rfl, fun x => ?_, List.nodup_dedup _⟩
    simp [List.mem_dedup]
  · intro old new ho hv ha
    subst hv
    exact updateCategory_arr_arr_bad p c old new hc ho ha
  · intro old new ho hv
    subst hv
    rw [updateCategory_obj_obj p c old new hc ho, alistGet_set_self]
    exact ⟨rfl,
      fun k w hnd hk => alistGet_dictUpdate_some old new k w hnd hk,
      fun k hk => alistGet_dictUpdate_none old new k hk⟩
  · intro hv1 hv2 ht hc1 hc2
    exact updateCategory_scalar_truthy p c v hc hv1 hv2 ht hc1 hc2
  · intro hv1 hv2 ht
    exact updateCategory_scalar_falsy p c v hc hv1 hv2 ht
  · intro hs ht hcs
    exact updateCategory_str_special p c v hc hs ht hcs

/-- Witness for C4 (amended): updating the empty equipment mapping with a
one-entry extracted mapping stores that entry. -/
theorem merge_semantics_w :
    alistGet (updateCategory initProfile "equipment"
        (Json.obj [("putter", Json.str "blade")])) "equipment" =
      some (Json.obj [("putter", Json.str "blade")]) := by
  have h := (merge_semantics initProfile "equipment"
    (Json.obj [("putter", Json.str "blade")]) (by decide)).2.2.1
    [] [("putter", Json.str "blade")] (by decide) rfl
  exact h.1

/-- Counterexample to C1 as stated: with zero transcript turns stored for
session "g" — fewer than the claimed minimum of 4 — reflection still runs
and appends a tip, because `_reflect_on_interaction` checks only the stored
interaction count (src/main.py line 280) and never reads
`self.session_store`; moreover the human message it sends to the remote
model is only the current turn's input/response pair (line 295), not the
last 10 transcript turns. -/
theorem reflection_no_transcript_precondition_cex :
    sessionTurns ([] : SessionStore) "g" = 0 ∧
    (reflectOnInteraction [("g", [("interaction_count", Json.int 5)])] "g" "u" "r"
      "\x7b\"effective_tip\":\"t\",\"keywords\":\"k\"\x7d" "d" []).length = 1 ∧
    reflectionHumanMessage "u" "r" = "USER: u\n\nCOACH: r" := by
  exact ⟨rfl, rfl, rfl⟩

/-- C1 (amended): reflection is a no-op exactly when the stored interaction
count is not a multiple of 5 — there is no precondition on stored transcript
turns — and when it runs it sends only the current turn's user input and
coach response to the remote model with the reflection prompt; when the
reply yields a JSON object carrying `effective_tip` and `keywords`, the tip
is appended to the capped knowledge base (src/main.py lines 277-325). -/
theorem reflection_behavior (ps : ProfileStore) (gid ui resp reply date : String)
    (tips : List Json) :
    (reflectionGuard ps gid = false →
      reflectOnInteraction ps gid ui resp reply date tips = tips) ∧
    reflectionHumanMessage ui resp = "USER: " ++ ui ++ "\n\nCOACH: " ++ resp ∧
    (∀ kvs, reflectionGuard ps gid = true →
      extractedJson reply = some (Json.obj kvs) →
      alistHas kvs "effective_tip" = true → alistHas kvs "keywords" = true →
      reflectOnInteraction ps gid ui resp reply date tips =
        addTip tips (mkTip kvs date)) := by
  refine ⟨?_, rfl, ?_⟩
  · intro h
    simp [reflectOnInteraction, h]
  · intro kvs hg hx h1 h2
    simp [reflectOnInteraction, hg, hx, h1, h2]

/-- Witness for C1 (amended): a golfer at count 0 (a multiple of 5) with a
well-formed reflection reply. -/
theorem reflection_behavior_w :
    reflectOnInteraction [("g", [("interaction_count", Json.int 0)])] "g" "u" "r"
      "\x7b\"effective_tip\":\"t\",\"keywords\":\"k\"\x7d" "d" [] =
      addTip [] (mkTip [("effective_tip", Json.str "t"), ("keywords", Json.str "k")] "d") :=
  (reflection_behavior [("g", [("interaction_count", Json.int 0)])] "g" "u" "r"
    "\x7b\"effective_tip\":\"t\",\"keywords\":\"k\"\x7d" "d" []).2.2
    [("effective_tip", Json.str "t"), ("keywords", Json.str "k")] rfl rfl rfl rfl
